import Mathlib

/-!
# Optimistic counter increment of `watchDemo2` (src/main.go)

The development embeds the closure `increment` of `watchDemo2` and the
transaction body `txf` it hands to `rdb.Watch`.  The program talks to the
store through three calls only (`rdb.Watch`, `tx.Get(key).Int()` and
`tx.Pipelined` with one staged `pipe.Set`), so a run is a tree of store calls
whose continuations are the Go code between two calls.  The same tree is
executed

* sequentially against an arbitrary store simulation (`Env`, `run`), and
* interleaved with other callers against a store with watch semantics
  (`Store`, `Config`, `runSched`).
-/

namespace StudyGoRedis

/-! ## Go values -/

/-- Largest value of Go's `int` on a 64-bit target. -/
def maxInt : Int := 9223372036854775807

/-- Smallest value of Go's `int` on a 64-bit target. -/
def minInt : Int := -9223372036854775808

/-- Two's-complement reduction of an integer into the range of Go's 64-bit
`int`; `n++` on a Go `int` is `wrapInt (n + 1)`. -/
def wrapInt (x : Int) : Int :=
  (x + 9223372036854775808) % 18446744073709551616 - 9223372036854775808

/-- The non-nil `error` values that occur in `watchDemo2`: the two sentinel
errors of the client library, the error built by `errors.New` at the end of
`increment`, and any other failure (connectivity, timeout, a value that does
not parse as an integer). -/
inductive GoError where
  | Nil
  | TxFailedErr
  | maxRetries
  | other (msg : String)
  deriving DecidableEq

/-- Modelled from the spec: the failures of the read `tx.Get(key).Int()`, whose
code is in the client library: the key is absent (`redis.Nil`) or the read did
not complete (store unavailable, timeout, value not an integer). -/
inductive ReadError where
  | Nil
  | fail (msg : String)
  deriving DecidableEq

/-- Modelled from the spec: the failures of the conditional commit run by
`tx.Pipelined`, whose code is in the client library: the optimistic lock was
lost (`redis.TxFailedErr`, the outcome `Aborted`) or the commit did not
complete (store unavailable, timeout). -/
inductive ExecError where
  | TxFailedErr
  | fail (msg : String)
  deriving DecidableEq

/-- The Go `error` value carried by a failed read. -/
def ReadError.toGo : ReadError → GoError
  | .Nil => .Nil
  | .fail msg => .other msg

/-- The Go `error` value carried by a failed commit. -/
def ExecError.toGo : ExecError → GoError
  | .TxFailedErr => .TxFailedErr
  | .fail msg => .other msg

/-- A staged `pipe.Set(key, value, expiration)`. -/
structure SetCmd where
  key : String
  value : Int
  expiration : Nat
  deriving DecidableEq

/-! ## Programs over the store calls -/

/-- A Go computation returning `α`, as the tree of its calls to the store:
`watch` is the registration done by `rdb.Watch`, `get` is
`tx.Get(key).Int()` with its pair of results `(n, err)`, `exec` is the
conditional commit of the commands staged inside `tx.Pipelined`. -/
inductive Prog (α : Type) where
  | ret (a : α)
  | watch (key : String) (k : Prog α)
  | get (key : String) (k : Int × Option ReadError → Prog α)
  | exec (cmds : List SetCmd) (k : Option ExecError → Prog α)

/-- Sequencing: run `p`, then continue with `f` on its result. -/
def Prog.bind {α β : Type} : Prog α → (α → Prog β) → Prog β
  | .ret a, f => f a
  | .watch key k, f => .watch key (k.bind f)
  | .get key k, f => .get key (fun r => (k r).bind f)
  | .exec cmds k, f => .exec cmds (fun r => (k r).bind f)

/-- Modelled from the spec: `tx.Pipelined(fn)` of the client library: `fn`
stages commands on an empty pipeline; if `fn` fails nothing is sent, otherwise
the staged commands are applied as one conditional batch and the error of that
commit is returned. -/
def Pipelined (fn : List SetCmd → List SetCmd × Option GoError) :
    Prog (Option GoError) :=
  match fn [] with
  | (_, some e) => .ret (some e)
  | (cmds, none) => .exec cmds (fun r => .ret (r.map ExecError.toGo))

/-- Modelled from the spec: `rdb.Watch(fn, key)` of the client library
(`runWatchedTransaction`): registers a watch on `key`, invokes the body exactly
once, and returns what the body returns. -/
def Watch (fn : Prog (Option GoError)) (key : String) : Prog (Option GoError) :=
  .watch key fn

/-- The closure `txf` of `increment` (main.go 231-248). -/
def txf (key : String) : Prog (Option GoError) :=
  .get key fun r =>
    let n := r.1
    let err := r.2.map ReadError.toGo
    if err ≠ none ∧ err ≠ some GoError.Nil then
      .ret err
    else
      let n := wrapInt (n + 1)
      Pipelined fun pipe => (pipe ++ [⟨key, n, 0⟩], none)

/-- The retry loop of `increment` (main.go 250-257), `retries` iterations
left: `for retries := routineCount; retries > 0; retries--`. -/
def incrementLoop (key : String) : Nat → Prog (Option GoError)
  | 0 => .ret (some GoError.maxRetries)
  | retries + 1 =>
    (Watch (txf key) key).bind fun err =>
      if err ≠ some GoError.TxFailedErr then .ret err
      else incrementLoop key retries

/-- The closure `increment` of `watchDemo2` (main.go 230-258).  The constant
`routineCount` it captures is a parameter; the loop body runs while
`retries > 0`, that is `routineCount.toNat` times at most. -/
def increment (routineCount : Int) (key : String) : Prog (Option GoError) :=
  incrementLoop key routineCount.toNat

/-! ## Sequential execution against a store simulation -/

/-- A store simulation with state `σ`: how it answers each of the three
calls. -/
structure Env (σ : Type) where
  watch : String → σ → σ
  get : String → σ → (Int × Option ReadError) × σ
  exec : List SetCmd → σ → Option ExecError × σ

/-- One call to the store together with its answer. -/
inductive Event where
  | watch (key : String)
  | get (key : String) (n : Int) (err : Option ReadError)
  | exec (cmds : List SetCmd) (err : Option ExecError)
  deriving DecidableEq

/-- What a run produced: the returned value, the calls made in order, and the
state the store was left in. -/
structure Outcome (α σ : Type) where
  result : α
  trace : List Event
  final : σ

/-- Run a program to completion against a store simulation. -/
def run {α σ : Type} (env : Env σ) : Prog α → σ → Outcome α σ
  | .ret a, s => ⟨a, [], s⟩
  | .watch key k, s =>
    let o := run env k (env.watch key s)
    ⟨o.result, Event.watch key :: o.trace, o.final⟩
  | .get key k, s =>
    let r := env.get key s
    let o := run env (k r.1) r.2
    ⟨o.result, Event.get key r.1.1 r.1.2 :: o.trace, o.final⟩
  | .exec cmds k, s =>
    let r := env.exec cmds s
    let o := run env (k r.1) r.2
    ⟨o.result, Event.exec cmds r.1 :: o.trace, o.final⟩

/-- The event is a watch registration, the start of an attempt. -/
def Event.isWatch : Event → Bool
  | .watch _ => true
  | _ => false

/-- The event is a read of a key. -/
def Event.isGet : Event → Bool
  | .get _ _ _ => true
  | _ => false

/-- The event is a commit attempt. -/
def Event.isExec : Event → Bool
  | .exec _ _ => true
  | _ => false

/-- Number of watched-transaction calls (attempts) in a trace. -/
def attempts (t : List Event) : Nat := t.countP Event.isWatch

/-- Number of reads in a trace. -/
def reads (t : List Event) : Nat := t.countP Event.isGet

/-- Number of commit attempts in a trace. -/
def commits (t : List Event) : Nat := t.countP Event.isExec

/-- The outcomes of the first `n` consecutive watched-transaction calls made
from state `s`, each call starting in the state the previous one left. -/
def watchOutcomes {σ : Type} (env : Env σ) (key : String) :
    Nat → σ → List (Option GoError)
  | 0, _ => []
  | n + 1, s =>
    (run env (Watch (txf key) key) s).result ::
      watchOutcomes env key n (run env (Watch (txf key) key) s).final

/-- A simulation that answers every read with `0` and aborts every commit. -/
def alwaysAborts : Env Unit where
  watch := fun _ s => s
  get := fun _ s => ((0, none), s)
  exec := fun _ s => (some ExecError.TxFailedErr, s)

/-! ## The store and interleaved callers -/

/-- What the store remembers about the transaction of one caller: the keys it
watches and whether one of them was written since the watch was registered. -/
structure WatchState where
  keys : List String
  dirty : Bool
  deriving DecidableEq

/-- Modelled from the spec: the state of the external key-value store: the
integer held under each key (`none` when the key is absent) and the watch
registration of each caller. -/
structure Store where
  data : String → Option Int
  watching : Nat → WatchState

/-- Modelled from the spec: watch registration for caller `i`; every
`rdb.Watch` call opens a transaction of its own, so the registration starts
clean. -/
def Store.watch (i : Nat) (key : String) (st : Store) : Store :=
  { st with watching := fun j => if j = i then ⟨[key], false⟩ else st.watching j }

/-- Modelled from the spec: what `Get(key).Int()` returns on the store: the
value, or `0` with `redis.Nil` when the key is absent. -/
def Store.readInt (st : Store) (key : String) : Int × Option ReadError :=
  match st.data key with
  | some n => (n, none)
  | none => (0, some ReadError.Nil)

/-- Modelled from the spec: a write of `value` under `key`; every caller that
watches `key` has its pending transaction invalidated. -/
def Store.set (c : SetCmd) (st : Store) : Store :=
  { data := fun k => if k = c.key then some c.value else st.data k
    watching := fun j =>
      if c.key ∈ (st.watching j).keys then ⟨(st.watching j).keys, true⟩
      else st.watching j }

/-- Modelled from the spec: the conditional commit of caller `i`: if a watched
key was written since the registration the batch is dropped and the conflict
is reported (`Aborted`), otherwise all staged commands are applied
(`Committed`); either way the registration of `i` ends. -/
def Store.exec (i : Nat) (cmds : List SetCmd) (st : Store) : Option ExecError × Store :=
  if (st.watching i).dirty then
    (some ExecError.TxFailedErr,
      { st with watching := fun j => if j = i then ⟨[], false⟩ else st.watching j })
  else
    let st1 := cmds.foldl (fun acc c => Store.set c acc) st
    (none, { st1 with watching := fun j => if j = i then ⟨[], false⟩ else st1.watching j })

/-- The store as seen by caller `i`. -/
def Store.env (i : Nat) : Env Store where
  watch := fun key st => Store.watch i key st
  get := fun key st => (st.readInt key, st)
  exec := fun cmds st => Store.exec i cmds st

/-- A store with no key and no registration. -/
def Store.empty : Store where
  data := fun _ => none
  watching := fun _ => ⟨[], false⟩

/-- The goroutines of `watchDemo2` (one program each), the store they share,
and the calls made so far, each tagged with the goroutine that made it. -/
structure Config where
  threads : List (Prog (Option GoError))
  store : Store
  trace : List (Nat × Event)

/-- Goroutine `i` performs its next call to the store; a goroutine that has
returned, or an index that names no goroutine, changes nothing. -/
def step (i : Nat) (c : Config) : Config :=
  match c.threads[i]? with
  | none => c
  | some (.ret _) => c
  | some (.watch key k) =>
    ⟨c.threads.set i k, (Store.env i).watch key c.store,
      c.trace ++ [(i, Event.watch key)]⟩
  | some (.get key k) =>
    let r := (Store.env i).get key c.store
    ⟨c.threads.set i (k r.1), r.2, c.trace ++ [(i, Event.get key r.1.1 r.1.2)]⟩
  | some (.exec cmds k) =>
    let r := (Store.env i).exec cmds c.store
    ⟨c.threads.set i (k r.1), r.2, c.trace ++ [(i, Event.exec cmds r.1)]⟩

/-- Run the goroutines under a schedule: the list of goroutine indices in the
order in which their calls reach the store. -/
def runSched (sched : List Nat) (c : Config) : Config :=
  sched.foldl (fun acc i => step i acc) c

/-- The goroutines started by `watchDemo2` (main.go 260-270): `n` callers of
`increment` on the same key, each with the retry budget `budget`. -/
def spawn (n : Nat) (budget : Int) (key : String) (st : Store) : Config :=
  ⟨List.replicate n (increment budget key), st, []⟩

/-- The function `watchDemo2`: `routineCount = 100` goroutines run
`increment("counter3")`, whose retry budget is the same constant. -/
def watchDemo2 (st : Store) : Config :=
  spawn 100 100 "counter3" st

/-- The value a program has returned, if it has returned. -/
def Prog.returned {α : Type} : Prog α → Option α
  | .ret a => some a
  | _ => none

/-- Every goroutine has returned `nil` (all calls of `increment` succeeded, the
barrier `wg.Wait()` is passed). -/
def allSucceeded (c : Config) : Bool :=
  c.threads.all fun t => t.returned == some none

/-- The value read back after the barrier (main.go 273):
`rdb.Get(key).Int()`. -/
def finalValue (c : Config) (key : String) : Int :=
  (c.store.readInt key).1

/-- The event is a commit that the store aborted. -/
def Event.isAbort : Event → Bool
  | .exec _ (some ExecError.TxFailedErr) => true
  | _ => false

/-- Number of commits of goroutine `i` that the store aborted. -/
def aborts (i : Nat) (t : List (Nat × Event)) : Nat :=
  t.countP fun e => e.1 == i && e.2.isAbort

/-- A trace is a sequence of attempts, each of them a watch registration and a
read of `key`, followed or not by a commit, and every commit stages exactly
the one command `Set(key, f n, 0)` for the value `n` read in the same
attempt. -/
def attemptsStage (f : Int → Int) (key : String) : List Event → Bool
  | [] => true
  | Event.watch k1 :: Event.get k2 n _ :: Event.exec cmds _ :: rest =>
    k1 == key && k2 == key && cmds == [⟨key, f n, 0⟩] && attemptsStage f key rest
  | Event.watch k1 :: Event.get k2 _ _ :: rest =>
    k1 == key && k2 == key && attemptsStage f key rest
  | _ => false

/-- A simulation whose reads fail: the store cannot be reached. -/
def readFails : Env Unit where
  watch := fun _ s => s
  get := fun _ s => ((0, some (ReadError.fail "connection refused")), s)
  exec := fun _ s => (none, s)

/-- A simulation that aborts the first `n` commits and loses the connection
on the next one; the state counts the commits still to abort. -/
def abortsThenFails : Env Nat where
  watch := fun _ s => s
  get := fun _ s => ((7, none), s)
  exec := fun _ s =>
    match s with
    | 0 => (some (ExecError.fail "i/o timeout"), 0)
    | n + 1 => (some ExecError.TxFailedErr, n)

/-- A simulation in which another writer moves the key between two attempts:
the first attempt reads `5` and is aborted, the second reads the largest
`int`. -/
def movedToMaxInt : Env Bool where
  watch := fun _ s => s
  get := fun _ s => ((if s then maxInt else 5, none), s)
  exec := fun _ s => (if s then none else some ExecError.TxFailedErr, true)

/-- A store that holds `n` under `key` and nothing else. -/
def Store.holding (key : String) (n : Int) : Store where
  data := fun k => if k = key then some n else none
  watching := fun _ => ⟨[], false⟩

/-- The schedule of the two-caller scenario, caller `0` being A and caller `1`
being B: both register, both read, A commits, B is aborted, then B registers,
reads and commits again. -/
def twoCallers : Config :=
  runSched [0, 1, 0, 1, 0, 1, 1, 1, 1] (spawn 2 100 "counter3" Store.empty)

/-! ## The points of `increment` between two calls to the store -/

/-- Where a goroutine running `increment` stands between two calls to the
store: before an iteration of the loop with `retries` iterations left, inside
`rdb.Watch` before the read (`retries` iterations left after this one), before
the commit with the value `n` that was read, or returned with `nil`. -/
inductive Phase where
  | loop (retries : Nat)
  | reading (retries : Nat)
  | committing (retries : Nat) (n : Int)
  | done
  deriving DecidableEq

/-- What the loop of `increment` does with the result of `rdb.Watch`
(main.go 252-256) when `retries` iterations are left after this one. -/
def afterWatch (key : String) (retries : Nat) (err : Option GoError) :
    Prog (Option GoError) :=
  if err ≠ some GoError.TxFailedErr then .ret err else incrementLoop key retries

/-- The rest of the program of a goroutine at a given point. -/
def Phase.prog (key : String) : Phase → Prog (Option GoError)
  | .loop retries => incrementLoop key retries
  | .reading retries => (txf key).bind (afterWatch key retries)
  | .committing retries n =>
    (Pipelined fun pipe => (pipe ++ [⟨key, wrapInt (n + 1), 0⟩], none)).bind
      (afterWatch key retries)
  | .done => .ret none

/-- The goroutine has returned `nil`. -/
def Phase.isDone : Phase → Bool
  | .done => true
  | _ => false

/-- The goroutines by the point each has reached, with the store and the
calls made so far. -/
structure Points where
  phases : List Phase
  store : Store
  trace : List (Nat × Event)

/-- The configuration in which every goroutine is at its recorded point. -/
def Points.config (key : String) (a : Points) : Config :=
  ⟨a.phases.map (Phase.prog key), a.store, a.trace⟩

/-- The next call of goroutine `i`, on the points. -/
def Points.step (key : String) (i : Nat) (a : Points) : Points :=
  match a.phases[i]? with
  | none => a
  | some (.loop 0) => a
  | some (.loop (retries + 1)) =>
    ⟨a.phases.set i (.reading retries), Store.watch i key a.store,
      a.trace ++ [(i, Event.watch key)]⟩
  | some (.reading retries) =>
    ⟨a.phases.set i (.committing retries (a.store.readInt key).1), a.store,
      a.trace ++ [(i, Event.get key (a.store.readInt key).1 (a.store.readInt key).2)]⟩
  | some (.committing retries n) =>
    if (a.store.watching i).dirty then
      ⟨a.phases.set i (.loop retries),
        (Store.exec i [⟨key, wrapInt (n + 1), 0⟩] a.store).2,
        a.trace ++ [(i, Event.exec [⟨key, wrapInt (n + 1), 0⟩]
          (some ExecError.TxFailedErr))]⟩
    else
      ⟨a.phases.set i .done,
        (Store.exec i [⟨key, wrapInt (n + 1), 0⟩] a.store).2,
        a.trace ++ [(i, Event.exec [⟨key, wrapInt (n + 1), 0⟩] none)]⟩
  | some .done => a

/-- A schedule, on the points. -/
def Points.run (key : String) (sched : List Nat) (a : Points) : Points :=
  sched.foldl (fun acc i => Points.step key i acc) a

/-- Number of goroutines that have returned `nil`. -/
def Points.doneCount (a : Points) : Nat :=
  a.phases.countP Phase.isDone

/-- Iterations of the loop a goroutine has left, the one in progress
included. -/
def Phase.left : Phase → Nat
  | .loop retries => retries
  | .reading retries => retries + 1
  | .committing retries _ => retries + 1
  | .done => 0

/-- The goroutine is inside `rdb.Watch`, between registration and commit. -/
def Phase.inAttempt : Phase → Bool
  | .reading _ => true
  | .committing _ _ => true
  | _ => false

/-- The accounting of aborts for goroutine `i` at point `p` with budget `b`:
a goroutine still running has used one iteration per abort, and each of its
aborts, the one already decided by a dirty registration included, is paid for
by the commit of another goroutine; a goroutine that has returned `nil` was
aborted at most once per commit other than its own. -/
def budgetAt (b : Nat) (a : Points) (i : Nat) (p : Phase) : Prop :=
  if p.isDone then aborts i a.trace + 1 ≤ a.doneCount
  else
    aborts i a.trace + p.left = b ∧
      aborts i a.trace + (if p.inAttempt && (a.store.watching i).dirty then 1 else 0)
        ≤ a.doneCount

/-- The invariant behind the retry budget, for `n` goroutines with budget
`b`. -/
def Budget (n b : Nat) (a : Points) : Prop :=
  a.phases.length = n ∧
    (∀ i, n ≤ i → aborts i a.trace = 0) ∧
    ∀ i p, a.phases[i]? = some p → budgetAt b a i p

/-- What the store knows about goroutine `i` at point `p`: inside `rdb.Watch`
the key is registered, and a value read under a registration that is still
clean is the value the store holds. -/
def watchedAt (key : String) (a : Points) (i : Nat) (p : Phase) : Prop :=
  match p with
  | .reading _ => key ∈ (a.store.watching i).keys
  | .committing _ v =>
    key ∈ (a.store.watching i).keys ∧
      ((a.store.watching i).dirty = false → v = (a.store.readInt key).1)
  | _ => True

/-- The invariant behind the absence of lost updates, for `n` goroutines on a
key that started at `0`: the value under the key is the number of goroutines
that have returned `nil`. -/
def Counted (key : String) (n : Nat) (a : Points) : Prop :=
  a.phases.length = n ∧
    (a.store.readInt key).1 = (a.doneCount : Int) ∧
    ∀ i p, a.phases[i]? = some p → watchedAt key a i p

/-! ## Sequential execution: general facts -/

theorem run_bind {α β σ : Type} (env : Env σ) (p : Prog α) (f : α → Prog β) (s : σ) :
    run env (p.bind f) s =
      ⟨(run env (f (run env p s).result) (run env p s).final).result,
        (run env p s).trace ++ (run env (f (run env p s).result) (run env p s).final).trace,
        (run env (f (run env p s).result) (run env p s).final).final⟩ := by
  induction p generalizing s with
  | ret a => simp [Prog.bind, run]
  | watch key k ih => simp [Prog.bind, run, ih]
  | get key k ih => simp [Prog.bind, run, ih]
  | exec cmds k ih => simp [Prog.bind, run, ih]

/-- One attempt whose read fails with an error other than `redis.Nil`. -/
theorem run_Watch_read_fail {σ : Type} (env : Env σ) (key : String) (s : σ) (msg : String)
    (h : (env.get key (env.watch key s)).1.2 = some (ReadError.fail msg)) :
    run env (Watch (txf key) key) s =
      ⟨some (GoError.other msg),
        [Event.watch key,
          Event.get key (env.get key (env.watch key s)).1.1 (some (ReadError.fail msg))],
        (env.get key (env.watch key s)).2⟩ := by
  simp [Watch, txf, run, h, ReadError.toGo]

/-- One attempt whose read succeeds or finds the key absent. -/
theorem run_Watch_read_ok {σ : Type} (env : Env σ) (key : String) (s : σ)
    (h : ∀ msg, (env.get key (env.watch key s)).1.2 ≠ some (ReadError.fail msg)) :
    run env (Watch (txf key) key) s =
      ⟨(env.exec [⟨key, wrapInt ((env.get key (env.watch key s)).1.1 + 1), 0⟩]
            (env.get key (env.watch key s)).2).1.map ExecError.toGo,
        [Event.watch key,
          Event.get key (env.get key (env.watch key s)).1.1
            (env.get key (env.watch key s)).1.2,
          Event.exec [⟨key, wrapInt ((env.get key (env.watch key s)).1.1 + 1), 0⟩]
            (env.exec [⟨key, wrapInt ((env.get key (env.watch key s)).1.1 + 1), 0⟩]
              (env.get key (env.watch key s)).2).1],
        (env.exec [⟨key, wrapInt ((env.get key (env.watch key s)).1.1 + 1), 0⟩]
            (env.get key (env.watch key s)).2).2⟩ := by
  rcases hr : (env.get key (env.watch key s)).1.2 with _ | e
  · simp [Watch, txf, run, hr, Pipelined]
  · cases e with
    | Nil => simp [Watch, txf, run, hr, Pipelined, ReadError.toGo]
    | fail msg => exact absurd hr (h msg)

theorem attempts_Watch {σ : Type} (env : Env σ) (key : String) (s : σ) :
    attempts (run env (Watch (txf key) key) s).trace = 1 := by
  by_cases h : ∃ msg, (env.get key (env.watch key s)).1.2 = some (ReadError.fail msg)
  · obtain ⟨msg, hm⟩ := h
    rw [run_Watch_read_fail env key s msg hm]
    simp [attempts, Event.isWatch]
  · rw [run_Watch_read_ok env key s (fun msg hm => h ⟨msg, hm⟩)]
    simp [attempts, Event.isWatch]

theorem reads_Watch {σ : Type} (env : Env σ) (key : String) (s : σ) :
    reads (run env (Watch (txf key) key) s).trace = 1 := by
  by_cases h : ∃ msg, (env.get key (env.watch key s)).1.2 = some (ReadError.fail msg)
  · obtain ⟨msg, hm⟩ := h
    rw [run_Watch_read_fail env key s msg hm]
    simp [reads, Event.isGet]
  · rw [run_Watch_read_ok env key s (fun msg hm => h ⟨msg, hm⟩)]
    simp [reads, Event.isGet]

theorem run_ret {α σ : Type} (env : Env σ) (a : α) (s : σ) :
    run env (Prog.ret a) s = ⟨a, [], s⟩ := rfl

theorem run_incrementLoop_zero {σ : Type} (env : Env σ) (key : String) (s : σ) :
    run env (incrementLoop key 0) s = ⟨some GoError.maxRetries, [], s⟩ := by
  simp [incrementLoop, run]

/-- An attempt that does not report the conflict ends the loop. -/
theorem run_incrementLoop_return {σ : Type} (env : Env σ) (key : String) (r : Nat) (s : σ)
    (h : (run env (Watch (txf key) key) s).result ≠ some GoError.TxFailedErr) :
    run env (incrementLoop key (r + 1)) s = run env (Watch (txf key) key) s := by
  rw [incrementLoop, run_bind]
  simp [h, run_ret]

/-- An attempt that reports the conflict is followed by the rest of the loop. -/
theorem run_incrementLoop_retry {σ : Type} (env : Env σ) (key : String) (r : Nat) (s : σ)
    (h : (run env (Watch (txf key) key) s).result = some GoError.TxFailedErr) :
    run env (incrementLoop key (r + 1)) s =
      ⟨(run env (incrementLoop key r) (run env (Watch (txf key) key) s).final).result,
        (run env (Watch (txf key) key) s).trace ++
          (run env (incrementLoop key r) (run env (Watch (txf key) key) s).final).trace,
        (run env (incrementLoop key r) (run env (Watch (txf key) key) s).final).final⟩ := by
  rw [incrementLoop, run_bind]
  simp [h]

theorem attempts_append (a b : List Event) : attempts (a ++ b) = attempts a + attempts b := by
  simp [attempts]

theorem reads_append (a b : List Event) : reads (a ++ b) = reads a + reads b := by
  simp [reads]


/-! ## The retry loop against a store simulation -/

theorem loop_all_abort {σ : Type} (env : Env σ) (key : String)
    (habort : ∀ s, (run env (Watch (txf key) key) s).result = some GoError.TxFailedErr)
    (r : Nat) (s : σ) :
    (run env (incrementLoop key r) s).result = some GoError.maxRetries ∧
      attempts (run env (incrementLoop key r) s).trace = r := by
  induction r generalizing s with
  | zero => simp [run_incrementLoop_zero, attempts]
  | succ r ih =>
    rw [run_incrementLoop_retry env key r s (habort s)]
    refine ⟨(ih _).1, ?_⟩
    simp only [attempts_append, attempts_Watch, (ih _).2]
    omega

theorem loop_first_other {σ : Type} (env : Env σ) (key : String) (e : GoError)
    (he : e ≠ GoError.TxFailedErr) (j : Nat) (r : Nat) (s : σ) (hj : j < r)
    (hout : watchOutcomes env key (j + 1) s =
      List.replicate j (some GoError.TxFailedErr) ++ [some e]) :
    (run env (incrementLoop key r) s).result = some e ∧
      attempts (run env (incrementLoop key r) s).trace = j + 1 := by
  induction j generalizing r s with
  | zero =>
    obtain ⟨r, rfl⟩ : ∃ r0, r = r0 + 1 := ⟨r - 1, by omega⟩
    simp only [watchOutcomes, List.replicate, List.nil_append, List.cons.injEq, and_true] at hout
    have hne : (run env (Watch (txf key) key) s).result ≠ some GoError.TxFailedErr := by
      rw [hout]; simpa using he
    rw [run_incrementLoop_return env key r s hne]
    exact ⟨hout, by simp [attempts_Watch]⟩
  | succ j ih =>
    obtain ⟨r, rfl⟩ : ∃ r0, r = r0 + 1 := ⟨r - 1, by omega⟩
    rw [watchOutcomes] at hout
    simp only [List.replicate, List.cons_append, List.cons.injEq] at hout
    rw [run_incrementLoop_retry env key r s hout.1]
    have h := ih r _ (by omega) hout.2
    refine ⟨h.1, ?_⟩
    simp only [attempts_append, attempts_Watch, h.2]
    omega

/-- C1. Bounded retries: with a budget `k ≥ 1`, against a store simulation on
which every watched-transaction call reports the optimistic-lock conflict,
`increment` returns the retries-exhausted error and has made exactly `k`
watched-transaction attempts. -/
theorem increment_bounded_retries {σ : Type} (env : Env σ) (key : String) (k : Int)
    (hk : 1 ≤ k)
    (habort : ∀ s, (run env (Watch (txf key) key) s).result = some GoError.TxFailedErr)
    (s : σ) :
    (run env (increment k key) s).result = some GoError.maxRetries ∧
      (attempts (run env (increment k key) s).trace : Int) = k := by
  have h := loop_all_abort env key habort k.toNat s
  refine ⟨h.1, ?_⟩
  unfold increment
  rw [h.2]
  omega

/-- Witness for C1: budget 3 against the simulation that aborts every commit. -/
theorem increment_bounded_retries_witness :
    (1 : Int) ≤ 3 ∧
      (∀ s, (run alwaysAborts (Watch (txf "counter3") "counter3") s).result
        = some GoError.TxFailedErr) ∧
      (run alwaysAborts (increment 3 "counter3") ()).result = some GoError.maxRetries ∧
      (attempts (run alwaysAborts (increment 3 "counter3") ()).trace : Int) = 3 :=
  ⟨by decide, fun _ => rfl,
    increment_bounded_retries alwaysAborts "counter3" 3 (by decide) (fun _ => rfl) ()⟩

/-- C2. Single-attempt success: when the budget allows an attempt and the first
watched-transaction call reports no error (the store committed), `increment`
returns `nil` having made exactly one read of the key and exactly one
watched-transaction call. -/
theorem increment_single_attempt_success {σ : Type} (env : Env σ) (key : String)
    (routineCount : Int) (s : σ) (hrc : 1 ≤ routineCount)
    (hfirst : (run env (Watch (txf key) key) s).result = none) :
    (run env (increment routineCount key) s).result = none ∧
      reads (run env (increment routineCount key) s).trace = 1 ∧
      attempts (run env (increment routineCount key) s).trace = 1 := by
  obtain ⟨r, hr⟩ : ∃ r, routineCount.toNat = r + 1 := ⟨routineCount.toNat - 1, by omega⟩
  have hne : (run env (Watch (txf key) key) s).result ≠ some GoError.TxFailedErr := by
    rw [hfirst]; simp
  unfold increment
  rw [hr, run_incrementLoop_return env key r s hne]
  exact ⟨hfirst, reads_Watch env key s, attempts_Watch env key s⟩

/-- Witness for C2: one caller alone on the empty store, budget 100. -/
theorem increment_single_attempt_success_witness :
    (1 : Int) ≤ 100 ∧
      (run (Store.env 0) (Watch (txf "counter3") "counter3") Store.empty).result = none ∧
      (run (Store.env 0) (increment 100 "counter3") Store.empty).result = none ∧
      reads (run (Store.env 0) (increment 100 "counter3") Store.empty).trace = 1 ∧
      attempts (run (Store.env 0) (increment 100 "counter3") Store.empty).trace = 1 :=
  ⟨by decide, by decide,
    increment_single_attempt_success (Store.env 0) "counter3" 100 Store.empty
      (by decide) (by decide)⟩

/-- C6. Only conflicts are retried: if the first `j` watched-transaction calls
report the optimistic-lock conflict, the next one reports an error `e` that is
not the conflict, and that call is within the retry budget, then `increment`
returns exactly `e` and has made `j + 1` attempts, none after the one that
failed with `e`. -/
theorem increment_returns_first_other_error {σ : Type} (env : Env σ) (key : String)
    (routineCount : Int) (s : σ) (j : Nat) (e : GoError)
    (hbudget : (j : Int) < routineCount)
    (hout : watchOutcomes env key (j + 1) s =
      List.replicate j (some GoError.TxFailedErr) ++ [some e])
    (he : e ≠ GoError.TxFailedErr) :
    (run env (increment routineCount key) s).result = some e ∧
      attempts (run env (increment routineCount key) s).trace = j + 1 :=
  loop_first_other env key e he j routineCount.toNat s (by omega) hout

/-- Witness for C6: two aborted commits, then a timeout on the third. -/
theorem increment_returns_first_other_error_witness :
    ((2 : Nat) : Int) < 100 ∧
      watchOutcomes abortsThenFails "counter3" (2 + 1) 2 =
        List.replicate 2 (some GoError.TxFailedErr) ++ [some (GoError.other "i/o timeout")] ∧
      GoError.other "i/o timeout" ≠ GoError.TxFailedErr ∧
      (run abortsThenFails (increment 100 "counter3") 2).result
        = some (GoError.other "i/o timeout") ∧
      attempts (run abortsThenFails (increment 100 "counter3") 2).trace = 2 + 1 :=
  ⟨by decide, by decide, by decide,
    increment_returns_first_other_error abortsThenFails "counter3" 100 2 2
      (GoError.other "i/o timeout") (by decide) (by decide) (by decide)⟩

/-- C9. Read failure fails fast: if the read of the key inside an attempt fails
with an error other than `redis.Nil`, the attempt returns that error and stages
no command, and the loop of `increment`, whatever number `retries + 1` of
iterations it has left when the attempt starts, returns that same error after
this one attempt and without any commit. -/
theorem read_failure_fails_fast {σ : Type} (env : Env σ) (key : String)
    (retries : Nat) (s : σ) (msg : String)
    (hread : (env.get key (env.watch key s)).1.2 = some (ReadError.fail msg)) :
    (run env (Watch (txf key) key) s).result = some (GoError.other msg) ∧
      commits (run env (Watch (txf key) key) s).trace = 0 ∧
      (run env (incrementLoop key (retries + 1)) s).result = some (GoError.other msg) ∧
      attempts (run env (incrementLoop key (retries + 1)) s).trace = 1 ∧
      commits (run env (incrementLoop key (retries + 1)) s).trace = 0 := by
  have ha := run_Watch_read_fail env key s msg hread
  have hne : (run env (Watch (txf key) key) s).result ≠ some GoError.TxFailedErr := by
    rw [ha]; simp
  rw [run_incrementLoop_return env key retries s hne, ha]
  simp [commits, attempts, Event.isExec, Event.isWatch]

/-- Witness for C9: the read fails with a refused connection, 100 iterations left. -/
theorem read_failure_fails_fast_witness :
    (readFails.get "counter3" (readFails.watch "counter3" ())).1.2
        = some (ReadError.fail "connection refused") ∧
      (run readFails (Watch (txf "counter3") "counter3") ()).result
        = some (GoError.other "connection refused") ∧
      commits (run readFails (Watch (txf "counter3") "counter3") ()).trace = 0 ∧
      (run readFails (incrementLoop "counter3" (99 + 1)) ()).result
        = some (GoError.other "connection refused") ∧
      attempts (run readFails (incrementLoop "counter3" (99 + 1)) ()).trace = 1 ∧
      commits (run readFails (incrementLoop "counter3" (99 + 1)) ()).trace = 0 :=
  ⟨rfl, read_failure_fails_fast readFails "counter3" 99 () "connection refused" rfl⟩

/-! ## What an attempt stages -/

theorem wrapInt_succ_of_lt (n : Int) (hlo : minInt ≤ n) (hhi : n < maxInt) :
    wrapInt (n + 1) = n + 1 := by
  unfold minInt at hlo
  unfold maxInt at hhi
  unfold wrapInt
  omega

theorem loop_reads_attempts {σ : Type} (env : Env σ) (key : String) (r : Nat) (s : σ) :
    reads (run env (incrementLoop key r) s).trace =
      attempts (run env (incrementLoop key r) s).trace := by
  induction r generalizing s with
  | zero => simp [run_incrementLoop_zero, attempts, reads]
  | succ r ih =>
    by_cases h : (run env (Watch (txf key) key) s).result = some GoError.TxFailedErr
    · rw [run_incrementLoop_retry env key r s h]
      simp only [attempts_append, reads_append, attempts_Watch, reads_Watch, ih]
    · rw [run_incrementLoop_return env key r s h, attempts_Watch, reads_Watch]

theorem loop_attemptsStage {σ : Type} (env : Env σ) (key : String) (r : Nat) (s : σ) :
    attemptsStage (fun n => wrapInt (n + 1)) key (run env (incrementLoop key r) s).trace
      = true := by
  induction r generalizing s with
  | zero => simp [run_incrementLoop_zero, attemptsStage]
  | succ r ih =>
    by_cases h : (run env (Watch (txf key) key) s).result = some GoError.TxFailedErr
    · rw [run_incrementLoop_retry env key r s h]
      by_cases hf : ∃ msg, (env.get key (env.watch key s)).1.2 = some (ReadError.fail msg)
      · obtain ⟨msg, hm⟩ := hf
        rw [run_Watch_read_fail env key s msg hm] at h
        simp at h
      · rw [run_Watch_read_ok env key s (fun msg hm => hf ⟨msg, hm⟩)]
        simp [attemptsStage, ih]
    · rw [run_incrementLoop_return env key r s h]
      by_cases hf : ∃ msg, (env.get key (env.watch key s)).1.2 = some (ReadError.fail msg)
      · obtain ⟨msg, hm⟩ := hf
        rw [run_Watch_read_fail env key s msg hm]
        simp [attemptsStage]
      · rw [run_Watch_read_ok env key s (fun msg hm => hf ⟨msg, hm⟩)]
        simp [attemptsStage]

/-- C4, the claim as stated fails: a caller that reads the largest `int` under
the key commits, and the command it staged, and so the value stored, is the
smallest `int`, not the value read plus one. -/
theorem committed_value_counterexample :
    (run (Store.env 0) (increment 100 "counter3")
        (Store.holding "counter3" 9223372036854775807)).result = none ∧
      (run (Store.env 0) (increment 100 "counter3")
        (Store.holding "counter3" 9223372036854775807)).trace =
        [Event.watch "counter3", Event.get "counter3" 9223372036854775807 none,
          Event.exec [⟨"counter3", -9223372036854775808, 0⟩] none] ∧
      (run (Store.env 0) (increment 100 "counter3")
        (Store.holding "counter3" 9223372036854775807)).final.data "counter3"
        = some (-9223372036854775808) ∧
      (run (Store.env 0) (increment 100 "counter3")
        (Store.holding "counter3" 9223372036854775807)).final.data "counter3"
        ≠ some (9223372036854775807 + 1) := by
  decide

/-- C4, amended: an attempt that commits has made exactly three calls: the
watch registration, one read of the key returning `(n, err)` with `err` either
`nil` or `redis.Nil`, and one commit that stages exactly the one command
`Set(key, wrapInt (n + 1), 0)`; `wrapInt (n + 1)` is `n + 1` for every `int`
`n` below the largest one; on the store an absent key is read as `0`, and a
commit of that command which the store accepts leaves `wrapInt (n + 1)` under
the key. -/
theorem committed_attempt_stages_successor {σ : Type} (env : Env σ) (key : String) (s : σ)
    (st : Store) (i : Nat)
    (hcommit : (run env (Watch (txf key) key) s).result = none) :
    (run env (Watch (txf key) key) s).trace =
        [Event.watch key,
          Event.get key (env.get key (env.watch key s)).1.1
            (env.get key (env.watch key s)).1.2,
          Event.exec [⟨key, wrapInt ((env.get key (env.watch key s)).1.1 + 1), 0⟩] none] ∧
      ((env.get key (env.watch key s)).1.2 = none ∨
        (env.get key (env.watch key s)).1.2 = some ReadError.Nil) ∧
      (minInt ≤ (env.get key (env.watch key s)).1.1 →
        (env.get key (env.watch key s)).1.1 < maxInt →
        wrapInt ((env.get key (env.watch key s)).1.1 + 1)
          = (env.get key (env.watch key s)).1.1 + 1) ∧
      (st.data key = none → st.readInt key = (0, some ReadError.Nil)) ∧
      ((Store.exec i [⟨key, wrapInt ((env.get key (env.watch key s)).1.1 + 1), 0⟩] st).1
          = none →
        (Store.exec i [⟨key, wrapInt ((env.get key (env.watch key s)).1.1 + 1), 0⟩]
          st).2.data key = some (wrapInt ((env.get key (env.watch key s)).1.1 + 1))) := by
  have hok : ∀ msg, (env.get key (env.watch key s)).1.2 ≠ some (ReadError.fail msg) := by
    intro msg hm
    rw [run_Watch_read_fail env key s msg hm] at hcommit
    simp at hcommit
  rw [run_Watch_read_ok env key s hok] at hcommit
  rw [run_Watch_read_ok env key s hok]
  simp only [Option.map_eq_none'] at hcommit
  refine ⟨by simp [hcommit], ?_, wrapInt_succ_of_lt _, ?_, ?_⟩
  · rcases hr : (env.get key (env.watch key s)).1.2 with _ | e
    · exact Or.inl rfl
    · cases e with
      | Nil => exact Or.inr rfl
      | fail msg => exact absurd hr (hok msg)
  · intro h
    simp [Store.readInt, h]
  · unfold Store.exec
    by_cases hd : (st.watching i).dirty = true
    · simp [hd]
    · simp [hd, Store.set]

/-- Witness for C4 as amended: one attempt on the empty store stages and stores 1. -/
theorem committed_attempt_stages_successor_witness :
    (run (Store.env 0) (Watch (txf "counter3") "counter3") Store.empty).result = none ∧
      (run (Store.env 0) (Watch (txf "counter3") "counter3") Store.empty).trace =
        [Event.watch "counter3", Event.get "counter3" 0 (some ReadError.Nil),
          Event.exec [⟨"counter3", 1, 0⟩] none] ∧
      (run (Store.env 0) (Watch (txf "counter3") "counter3") Store.empty).final.data
        "counter3" = some 1 :=
  ⟨by decide,
    (committed_attempt_stages_successor (Store.env 0) "counter3" Store.empty Store.empty 0
      (by decide)).1,
    by decide⟩

/-- C7, the claim as stated fails: in a run of two attempts whose second
attempt reads the largest `int`, the value staged by the second attempt is not
the value it read plus one. -/
theorem fresh_reread_counterexample :
    (run movedToMaxInt (increment 100 "counter3") false).trace =
        [Event.watch "counter3", Event.get "counter3" 5 none,
          Event.exec [⟨"counter3", 6, 0⟩] (some ExecError.TxFailedErr),
          Event.watch "counter3", Event.get "counter3" 9223372036854775807 none,
          Event.exec [⟨"counter3", -9223372036854775808, 0⟩] none] ∧
      ¬ attemptsStage (fun n => n + 1) "counter3"
        (run movedToMaxInt (increment 100 "counter3") false).trace = true := by
  decide

/-- C7, amended: in every run of `increment` the number of reads equals the
number of attempts, and the trace is a sequence of attempts in which every
commit stages `Set(key, wrapInt (n + 1), 0)` for the value `n` read in the
same attempt, whatever earlier attempts read; `wrapInt (n + 1)` is `n + 1` for
every `int` `n` below the largest one. -/
theorem increment_rereads_each_attempt {σ : Type} (env : Env σ) (key : String)
    (routineCount : Int) (s : σ) :
    reads (run env (increment routineCount key) s).trace =
        attempts (run env (increment routineCount key) s).trace ∧
      attemptsStage (fun n => wrapInt (n + 1)) key
        (run env (increment routineCount key) s).trace = true ∧
      ∀ n : Int, minInt ≤ n → n < maxInt → wrapInt (n + 1) = n + 1 :=
  ⟨loop_reads_attempts env key _ s, loop_attemptsStage env key _ s, wrapInt_succ_of_lt⟩

/-! ## Interleaved callers: the points simulate the programs -/

theorem incrementLoop_succ (key : String) (r : Nat) :
    incrementLoop key (r + 1) = Prog.watch key ((txf key).bind (afterWatch key r)) := by
  rw [incrementLoop]
  rfl

theorem step_config (key : String) (i : Nat) (a : Points) :
    step i (a.config key) = (a.step key i).config key := by
  unfold step Points.step Points.config
  simp only [List.getElem?_map]
  rcases h : a.phases[i]? with _ | p
  · simp
  · cases p with
    | loop r =>
      cases r with
      | zero => simp [Phase.prog, incrementLoop]
      | succ r =>
        simp [Phase.prog, incrementLoop_succ, Store.env, List.map_set]
    | reading r =>
      have hread : (a.store.readInt key).2 = none ∨
          (a.store.readInt key).2 = some ReadError.Nil := by
        unfold Store.readInt
        cases a.store.data key <;> simp
      rcases hread with h2 | h2 <;>
        simp [Phase.prog, txf, Prog.bind, Store.env, List.map_set, h2, ReadError.toGo]
    | committing r n =>
      by_cases hd : (a.store.watching i).dirty = true
      · simp [Phase.prog, Pipelined, Prog.bind, Store.env, List.map_set, hd, Store.exec,
          afterWatch, ExecError.toGo]
      · simp [Phase.prog, Pipelined, Prog.bind, Store.env, List.map_set, hd, Store.exec,
          afterWatch]
    | done => simp [Phase.prog]

theorem runSched_config (key : String) (sched : List Nat) (a : Points) :
    runSched sched (a.config key) = (a.run key sched).config key := by
  induction sched generalizing a with
  | nil => rfl
  | cons i rest ih =>
    simp only [runSched, Points.run, List.foldl_cons] at ih ⊢
    rw [step_config, ih]

theorem spawn_config (n : Nat) (budget : Int) (key : String) (st : Store) :
    spawn n budget key st =
      Points.config key ⟨List.replicate n (Phase.loop budget.toNat), st, []⟩ := by
  simp [spawn, Points.config, Phase.prog, increment]

/-! ## Interleaved callers: counting -/

theorem aborts_snoc (i j : Nat) (e : Event) (t : List (Nat × Event)) :
    aborts i (t ++ [(j, e)]) =
      aborts i t + (if j = i ∧ e.isAbort = true then 1 else 0) := by
  unfold aborts
  rw [List.countP_append]
  by_cases h : j = i ∧ e.isAbort = true
  · simp [h]
  · simp only [h, if_false]
    rw [List.countP_singleton]
    have : ((j == i) && e.isAbort) = false := by
      rcases Bool.eq_false_or_eq_true ((j == i) && e.isAbort) with hb | hb
      · exfalso; apply h; simpa using hb
      · exact hb
    simp [this]

theorem countP_set_isDone (l : List Phase) (j : Nat) (pj q : Phase)
    (h : l[j]? = some pj) :
    (l.set j q).countP Phase.isDone + (if pj.isDone then 1 else 0) =
      l.countP Phase.isDone + (if q.isDone then 1 else 0) := by
  induction l generalizing j with
  | nil => simp at h
  | cons x xs ih =>
    cases j with
    | zero =>
      simp only [List.getElem?_cons_zero, Option.some.injEq] at h
      subst h
      simp only [List.set_cons_zero, List.countP_cons]
      omega
    | succ j =>
      simp only [List.getElem?_cons_succ] at h
      have := ih j h
      simp only [List.set_cons_succ, List.countP_cons]
      omega

theorem countP_isDone_lt (l : List Phase) (j : Nat) (pj : Phase)
    (h : l[j]? = some pj) (hnd : pj.isDone = false) :
    l.countP Phase.isDone + 1 ≤ l.length := by
  induction l generalizing j with
  | nil => simp at h
  | cons x xs ih =>
    cases j with
    | zero =>
      simp only [List.getElem?_cons_zero, Option.some.injEq] at h
      subst h
      simp only [List.countP_cons, hnd, List.length_cons]
      have := List.countP_le_length Phase.isDone (l := xs)
      simp
      omega
    | succ j =>
      simp only [List.getElem?_cons_succ] at h
      have := ih j h
      simp only [List.countP_cons, List.length_cons]
      split <;> omega

/-! ## Interleaved callers: the store -/

theorem Store.watch_watching (i j : Nat) (key : String) (st : Store) :
    (Store.watch j key st).watching i = if i = j then ⟨[key], false⟩ else st.watching i :=
  rfl

theorem Store.watch_data (j : Nat) (key : String) (st : Store) :
    (Store.watch j key st).data = st.data :=
  rfl

theorem Store.exec_dirty (j : Nat) (cmds : List SetCmd) (st : Store)
    (h : (st.watching j).dirty = true) :
    Store.exec j cmds st = (some ExecError.TxFailedErr,
      { st with watching := fun i => if i = j then ⟨[], false⟩ else st.watching i }) := by
  simp [Store.exec, h]

theorem Store.exec_clean (j : Nat) (c : SetCmd) (st : Store)
    (h : (st.watching j).dirty = false) :
    Store.exec j [c] st = (none,
      { data := fun k => if k = c.key then some c.value else st.data k
        watching := fun i =>
          if i = j then ⟨[], false⟩
          else if c.key ∈ (st.watching i).keys then ⟨(st.watching i).keys, true⟩
          else st.watching i }) := by
  simp [Store.exec, h, Store.set]

/-! ## Interleaved callers: the retry budget -/

theorem budget_update (n b j : Nat) (a : Points) (pj q : Phase) (st : Store) (e : Event)
    (h : Budget n b a) (hj : a.phases[j]? = some pj)
    (hq : budgetAt b ⟨a.phases.set j q, st, a.trace ++ [(j, e)]⟩ j q)
    (hothers : ∀ i p, i ≠ j → a.phases[i]? = some p → budgetAt b a i p →
      budgetAt b ⟨a.phases.set j q, st, a.trace ++ [(j, e)]⟩ i p) :
    Budget n b ⟨a.phases.set j q, st, a.trace ++ [(j, e)]⟩ := by
  obtain ⟨hlen, hout, hall⟩ := h
  have hjn : j < n := by
    have := (List.getElem?_eq_some_iff.1 hj).1
    omega
  refine ⟨by simp [hlen], ?_, ?_⟩
  · intro i hi
    rw [aborts_snoc, hout i hi]
    have : ¬ (j = i ∧ e.isAbort = true) := by
      intro hc
      omega
    simp [this]
  · intro i p hp
    simp only [List.getElem?_set] at hp
    by_cases hji : j = i
    · subst hji
      have hlt : j < a.phases.length := by omega
      simp only [hlt, if_true] at hp
      cases hp
      exact hq
    · simp only [hji, if_false] at hp
      exact hothers i p (fun h => hji h.symm) hp (hall i p hp)

theorem budget_step (key : String) (n b j : Nat) (a : Points) (h : Budget n b a) :
    Budget n b (a.step key j) := by
  unfold Points.step
  rcases hj : a.phases[j]? with _ | pj
  · exact h
  · have hpj := h.2.2 j pj hj
    cases pj with
    | loop r =>
      cases r with
      | zero => exact h
      | succ r =>
        apply budget_update n b j a _ _ _ _ h hj
        · simp only [budgetAt, Phase.isDone, Phase.left, Phase.inAttempt, Points.doneCount,
            aborts_snoc, Store.watch_watching, Event.isAbort] at hpj ⊢
          have hc := countP_set_isDone a.phases j _ (Phase.reading r) hj
          simp [Phase.isDone] at hc hpj ⊢
          omega
        · intro i p hij hp hb
          simp only [budgetAt, Points.doneCount, aborts_snoc, Store.watch_watching,
            Event.isAbort] at hb ⊢
          have hc := countP_set_isDone a.phases j _ (Phase.reading r) hj
          simp [Phase.isDone] at hc
          simp [hij, hc] at hb ⊢
          exact hb
    | reading r =>
      apply budget_update n b j a _ _ _ _ h hj
      · simp only [budgetAt, Phase.isDone, Phase.left, Phase.inAttempt, Points.doneCount,
          aborts_snoc, Event.isAbort] at hpj ⊢
        have hc := countP_set_isDone a.phases j _
          (Phase.committing r (a.store.readInt key).1) hj
        simp [Phase.isDone] at hc hpj ⊢
        omega
      · intro i p hij hp hb
        simp only [budgetAt, Points.doneCount, aborts_snoc, Event.isAbort] at hb ⊢
        have hc := countP_set_isDone a.phases j _
          (Phase.committing r (a.store.readInt key).1) hj
        simp [Phase.isDone] at hc
        simp [hc] at hb ⊢
        exact hb
    | committing r v =>
      by_cases hd : (a.store.watching j).dirty = true
      · simp only [hd, if_true]
        rw [Store.exec_dirty j _ _ hd]
        apply budget_update n b j a _ _ _ _ h hj
        · simp only [budgetAt, Phase.isDone, Phase.left, Phase.inAttempt, Points.doneCount,
            aborts_snoc, Event.isAbort] at hpj ⊢
          have hc := countP_set_isDone a.phases j _ (Phase.loop r) hj
          simp [Phase.isDone, hd] at hc hpj ⊢
          omega
        · intro i p hij hp hb
          simp only [budgetAt, Points.doneCount, aborts_snoc, Event.isAbort] at hb ⊢
          have hc := countP_set_isDone a.phases j _ (Phase.loop r) hj
          simp [Phase.isDone] at hc
          have hji : ¬ j = i := fun h => hij h.symm
          simp [hc, hij, hji] at hb ⊢
          exact hb
      · have hd2 : (a.store.watching j).dirty = false := by simpa using hd
        simp only [hd2, Bool.false_eq_true, if_false]
        rw [Store.exec_clean j _ _ hd2]
        apply budget_update n b j a _ _ _ _ h hj
        · simp only [budgetAt, Phase.isDone, Phase.left, Phase.inAttempt, Points.doneCount,
            aborts_snoc, Event.isAbort] at hpj ⊢
          have hc := countP_set_isDone a.phases j _ Phase.done hj
          simp [Phase.isDone, hd2] at hc hpj ⊢
          omega
        · intro i p hij hp hb
          simp only [budgetAt, Points.doneCount, aborts_snoc, Event.isAbort] at hb ⊢
          have hc := countP_set_isDone a.phases j _ Phase.done hj
          simp [Phase.isDone] at hc
          have hji : ¬ j = i := fun h => hij h.symm
          simp only [hc, hij, hji, false_and, if_false, Nat.add_zero] at hb ⊢
          cases hdone : p.isDone
          · simp only [hdone, Bool.false_eq_true, if_false] at hb ⊢
            refine ⟨hb.1, ?_⟩
            have h2 := hb.2
            cases p.inAttempt <;> cases hdi : (a.store.watching i).dirty <;>
              by_cases hk : key ∈ (a.store.watching i).keys <;>
              simp [hdi, hk] at h2 ⊢ <;> omega
          · simp only [hdone, if_true] at hb ⊢
            omega
    | done => exact h

theorem budget_run (key : String) (n b : Nat) (sched : List Nat) (a : Points)
    (h : Budget n b a) : Budget n b (a.run key sched) := by
  induction sched generalizing a with
  | nil => exact h
  | cons i rest ih =>
    simp only [Points.run, List.foldl_cons] at ih ⊢
    exact ih _ (budget_step key n b i a h)

theorem budget_init (n b : Nat) (st : Store) :
    Budget n b ⟨List.replicate n (Phase.loop b), st, []⟩ := by
  refine ⟨by simp, fun i _ => by simp [aborts], ?_⟩
  intro i p hp
  rw [List.getElem?_replicate] at hp
  split at hp
  · cases hp
    simp [budgetAt, Phase.isDone, Phase.left, Phase.inAttempt, aborts]
  · cases hp

theorem returned_prog_maxRetries (key : String) (p : Phase)
    (h : (Phase.prog key p).returned = some (some GoError.maxRetries)) :
    p = Phase.loop 0 := by
  cases p with
  | loop r =>
    cases r with
    | zero => rfl
    | succ r => simp [Phase.prog, incrementLoop_succ, Prog.returned] at h
  | reading r => simp [Phase.prog, txf, Prog.bind, Prog.returned] at h
  | committing r v => simp [Phase.prog, Pipelined, Prog.bind, Prog.returned] at h
  | done => simp [Phase.prog, Prog.returned] at h

theorem returned_prog_nil (key : String) (p : Phase)
    (h : (Phase.prog key p).returned = some none) : p = Phase.done := by
  cases p with
  | loop r =>
    cases r with
    | zero => simp [Phase.prog, incrementLoop, Prog.returned] at h
    | succ r => simp [Phase.prog, incrementLoop_succ, Prog.returned] at h
  | reading r => simp [Phase.prog, txf, Prog.bind, Prog.returned] at h
  | committing r v => simp [Phase.prog, Pipelined, Prog.bind, Prog.returned] at h
  | done => rfl

theorem budget_aborts_lt (n b : Nat) (a : Points) (h : Budget n b a) (i : Nat) (hn : 0 < n) :
    aborts i a.trace + 1 ≤ n := by
  obtain ⟨hlen, hout, hall⟩ := h
  rcases hi : a.phases[i]? with _ | p
  · have : n ≤ i := by
      have := List.getElem?_eq_none_iff.1 hi
      omega
    rw [hout i this]
    omega
  · have hb := hall i p hi
    have hle : a.doneCount ≤ n := by
      rw [← hlen]
      exact List.countP_le_length Phase.isDone
    unfold budgetAt at hb
    cases hd : p.isDone
    · simp only [hd, Bool.false_eq_true, if_false] at hb
      have := countP_isDone_lt a.phases i p hi hd
      unfold Points.doneCount at hb
      omega
    · simp only [hd, if_true] at hb
      omega

theorem budget_never_exhausted (n b : Nat) (a : Points) (h : Budget n b a) (hnb : n ≤ b)
    (i : Nat) : a.phases[i]? ≠ some (Phase.loop 0) := by
  intro hi
  have hb := h.2.2 i _ hi
  have hlt := countP_isDone_lt a.phases i _ hi rfl
  simp only [budgetAt, Phase.isDone, Phase.left, Points.doneCount, Bool.false_eq_true,
    if_false] at hb
  have := h.1
  omega

theorem budget_suffices (key : String) (n b : Nat) (hnb : n ≤ b) (hn : 0 < n) (st : Store)
    (sched : List Nat) :
    (∀ i, aborts i (runSched sched (spawn n b key st)).trace + 1 ≤ n) ∧
      ∀ t ∈ (runSched sched (spawn n b key st)).threads,
        t.returned ≠ some (some GoError.maxRetries) := by
  rw [spawn_config, runSched_config]
  have hB := budget_run key n b sched _ (budget_init n b st)
  simp only [Int.toNat_ofNat] at hB ⊢
  refine ⟨fun i => budget_aborts_lt n b _ hB i hn, ?_⟩
  intro t ht hret
  simp only [Points.config, List.mem_map] at ht
  obtain ⟨p, hp, rfl⟩ := ht
  have hp0 := returned_prog_maxRetries key p hret
  subst hp0
  obtain ⟨i, hi⟩ := List.getElem?_of_mem hp
  exact budget_never_exhausted n b _ hB hnb i hi

/-- C10. The demo's retry budget is sufficient: when the 100 goroutines of
`watchDemo2` run `increment` on the key, each with the budget of 100 attempts,
against the store (which aborts a commit only after a write to the watched key
and never fails otherwise), then under every schedule every goroutine has been
aborted at most 99 times and no goroutine has returned the retries-exhausted
error. -/
theorem demo_budget_sufficient (st : Store) (sched : List Nat) :
    (∀ i, aborts i (runSched sched (watchDemo2 st)).trace ≤ 99) ∧
      ∀ t ∈ (runSched sched (watchDemo2 st)).threads,
        t.returned ≠ some (some GoError.maxRetries) := by
  have h := budget_suffices "counter3" 100 100 (le_refl _) (by decide) st sched
  refine ⟨fun i => ?_, h.2⟩
  have := h.1 i
  unfold watchDemo2
  simp only [Nat.cast_ofNat] at this
  omega

/-! ## Interleaved callers: no lost update -/

theorem counted_update (key : String) (n j : Nat) (a : Points) (pj q : Phase)
    (st : Store) (e : Event)
    (h : Counted key n a) (hj : a.phases[j]? = some pj)
    (hval : (st.readInt key).1 = ((a.phases.set j q).countP Phase.isDone : Int))
    (hq : watchedAt key ⟨a.phases.set j q, st, a.trace ++ [(j, e)]⟩ j q)
    (hothers : ∀ i p, i ≠ j → a.phases[i]? = some p → watchedAt key a i p →
      watchedAt key ⟨a.phases.set j q, st, a.trace ++ [(j, e)]⟩ i p) :
    Counted key n ⟨a.phases.set j q, st, a.trace ++ [(j, e)]⟩ := by
  obtain ⟨hlen, _, hall⟩ := h
  refine ⟨by simp [hlen], hval, ?_⟩
  intro i p hp
  simp only [List.getElem?_set] at hp
  by_cases hji : j = i
  · subst hji
    have hlt : j < a.phases.length := (List.getElem?_eq_some_iff.1 hj).1
    simp only [hlt, if_true] at hp
    cases hp
    exact hq
  · simp only [hji, if_false] at hp
    exact hothers i p (fun h => hji h.symm) hp (hall i p hp)

theorem readInt_congr (st st2 : Store) (key : String) (h : st2.data key = st.data key) :
    st2.readInt key = st.readInt key := by
  simp [Store.readInt, h]

theorem watchedAt_frame (key : String) (a b : Points) (i : Nat) (p : Phase)
    (hw : watchedAt key a i p) (hwatch : b.store.watching i = a.store.watching i)
    (hdata : b.store.data key = a.store.data key) : watchedAt key b i p := by
  have hr := readInt_congr a.store b.store key hdata
  cases p with
  | loop r => trivial
  | reading r =>
    simp only [watchedAt] at hw ⊢
    rw [hwatch]
    exact hw
  | committing r v =>
    simp only [watchedAt] at hw ⊢
    rw [hwatch, hr]
    exact hw
  | done => trivial

theorem counted_step (key : String) (n j : Nat) (hn : (n : Int) ≤ maxInt) (a : Points)
    (h : Counted key n a) : Counted key n (a.step key j) := by
  unfold Points.step
  rcases hj : a.phases[j]? with _ | pj
  · exact h
  · have hpj := h.2.2 j pj hj
    have hv := h.2.1
    cases pj with
    | loop r =>
      cases r with
      | zero => exact h
      | succ r =>
        have hc := countP_set_isDone a.phases j _ (Phase.reading r) hj
        simp [Phase.isDone] at hc
        apply counted_update key n j a _ _ _ _ h hj
        · rw [hc]
          exact hv
        · simp [watchedAt, Store.watch_watching]
        · intro i p hij hp hw
          exact watchedAt_frame key a _ i p hw (by simp [Store.watch_watching, hij]) rfl
    | reading r =>
      have hc := countP_set_isDone a.phases j _
        (Phase.committing r (a.store.readInt key).1) hj
      simp [Phase.isDone] at hc
      apply counted_update key n j a _ _ _ _ h hj
      · rw [hc]
        exact hv
      · simpa [watchedAt] using hpj
      · intro i p hij hp hw
        exact watchedAt_frame key a _ i p hw rfl rfl
    | committing r v =>
      by_cases hd : (a.store.watching j).dirty = true
      · simp only [hd, if_true]
        rw [Store.exec_dirty j _ _ hd]
        have hc := countP_set_isDone a.phases j _ (Phase.loop r) hj
        simp [Phase.isDone] at hc
        apply counted_update key n j a _ _ _ _ h hj
        · rw [hc]
          exact hv
        · simp [watchedAt]
        · intro i p hij hp hw
          exact watchedAt_frame key a _ i p hw (by simp [hij]) rfl
      · have hd2 : (a.store.watching j).dirty = false := by simpa using hd
        simp only [hd2, Bool.false_eq_true, if_false]
        rw [Store.exec_clean j _ _ hd2]
        have hc := countP_set_isDone a.phases j _ Phase.done hj
        simp [Phase.isDone] at hc
        have hlt := countP_isDone_lt a.phases j _ hj rfl
        have hvv : v = (a.doneCount : Int) := by
          rw [← hv]
          exact hpj.2 hd2
        apply counted_update key n j a _ _ _ _ h hj
        · rw [hc]
          simp only [Store.readInt, if_true]
          rw [hvv]
          have hlen := h.1
          unfold Points.doneCount
          unfold maxInt at hn
          unfold wrapInt
          push_cast
          omega
        · simp [watchedAt]
        · intro i p hij hp hw
          cases p with
          | loop r => trivial
          | reading r =>
            simp only [watchedAt] at hw ⊢
            simp [hij, hw]
          | committing r w =>
            simp only [watchedAt] at hw ⊢
            simp [hij, hw.1]
          | done => trivial
    | done => exact h

theorem counted_run (key : String) (n : Nat) (hn : (n : Int) ≤ maxInt) (sched : List Nat)
    (a : Points) (h : Counted key n a) : Counted key n (a.run key sched) := by
  induction sched generalizing a with
  | nil => exact h
  | cons i rest ih =>
    simp only [Points.run, List.foldl_cons] at ih ⊢
    exact ih _ (counted_step key n i hn a h)

theorem counted_init (key : String) (n b : Nat) (st : Store)
    (h0 : (st.readInt key).1 = 0) :
    Counted key n ⟨List.replicate n (Phase.loop b), st, []⟩ := by
  refine ⟨by simp, ?_, ?_⟩
  · simp [Points.doneCount, h0, List.countP_replicate, Phase.isDone]
  · intro i p hp
    rw [List.getElem?_replicate] at hp
    split at hp
    · cases hp
      trivial
    · cases hp

/-- C3. No lost updates: for every number `n` of goroutines (a Go `int`, so at
most the largest one), every retry budget and every schedule, when `n` callers
of `increment` run against a key that reads as `0` at the start (absent, or
holding `0`) and all of them have returned `nil`, the value read back from the
key is exactly `n`. -/
theorem no_lost_updates (n : Nat) (budget : Int) (key : String) (st : Store)
    (sched : List Nat) (hn : (n : Int) ≤ maxInt) (hfresh : (st.readInt key).1 = 0)
    (hall : allSucceeded (runSched sched (spawn n budget key st)) = true) :
    finalValue (runSched sched (spawn n budget key st)) key = n := by
  rw [spawn_config, runSched_config] at hall ⊢
  have hC := counted_run key n hn sched _ (counted_init key n budget.toNat st hfresh)
  obtain ⟨hlen, hval, -⟩ := hC
  have hdone : ∀ p ∈ (Points.run key sched
      ⟨List.replicate n (Phase.loop budget.toNat), st, []⟩).phases, p.isDone = true := by
    intro p hp
    simp only [allSucceeded, Points.config, List.all_eq_true, List.mem_map,
      forall_exists_index, and_imp, forall_apply_eq_imp_iff₂, beq_iff_eq] at hall
    rw [returned_prog_nil key p (hall p hp)]
    rfl
  have hcount := List.countP_eq_length.2 hdone
  simp only [finalValue, Points.config]
  rw [hval, Points.doneCount, hcount, hlen]

/-- Witness for C3: three callers on the empty store under a schedule with three aborts. -/
theorem no_lost_updates_witness :
    ((3 : Nat) : Int) ≤ maxInt ∧
      (Store.empty.readInt "counter3").1 = 0 ∧
      allSucceeded (runSched [0, 1, 2, 0, 1, 2, 2, 1, 0, 1, 0, 1, 0, 1, 0, 0, 0, 0]
        (spawn 3 100 "counter3" Store.empty)) = true ∧
      finalValue (runSched [0, 1, 2, 0, 1, 2, 2, 1, 0, 1, 0, 1, 0, 1, 0, 0, 0, 0]
        (spawn 3 100 "counter3" Store.empty)) "counter3" = (3 : Nat) :=
  ⟨by decide, by decide, by decide,
    no_lost_updates 3 100 "counter3" Store.empty
      [0, 1, 2, 0, 1, 2, 2, 1, 0, 1, 0, 1, 0, 1, 0, 0, 0, 0] (by decide) (by decide) (by decide)⟩

/-- C8. The two-caller scenario: starting with the key absent, callers A
(goroutine `0`) and B (goroutine `1`) both read the key as absent (`0`) and
both stage `1`; the store commits A and aborts B; B registers again, reads `1`,
stages `2` and commits; both calls of `increment` have returned `nil` and the
key holds `2`. -/
theorem two_callers_scenario :
    twoCallers.trace =
        [(0, Event.watch "counter3"),
          (1, Event.watch "counter3"),
          (0, Event.get "counter3" 0 (some ReadError.Nil)),
          (1, Event.get "counter3" 0 (some ReadError.Nil)),
          (0, Event.exec [⟨"counter3", 1, 0⟩] none),
          (1, Event.exec [⟨"counter3", 1, 0⟩] (some ExecError.TxFailedErr)),
          (1, Event.watch "counter3"),
          (1, Event.get "counter3" 1 none),
          (1, Event.exec [⟨"counter3", 2, 0⟩] none)] ∧
      twoCallers.threads.map Prog.returned = [some none, some none] ∧
      twoCallers.store.data "counter3" = some 2 ∧
      finalValue twoCallers "counter3" = 2 := by
  decide

end StudyGoRedis
